import Mathlib

/-!
Verification of the interactive Kubernetes tutorial simulators.

Shallow embedding of the simulator logic of the repository:
* `NetworkPolicySimulator.tsx` — the `isBlocked` decider and the `sendTraffic`
  timer-driven traffic test;
* `SchedulerPlayground.tsx` — `getNodeFit` and the node pick in `schedulePod`;
* `ConfigAccessPlayground.tsx` — the RBAC table and `tryAccess`;
* `RolloutSimulator.tsx` — the rolling-update timer chain (`startRollout`,
  `clearAllTimeouts`, `reset`);
* `ControlPlaneJourney.tsx` — `advanceTo`, `runAll`, `handleReset`, the
  pipeline-node click handler;
* `progressStore.ts` — the persisted progress reducer.

Timers are modelled explicitly: every component keeps a list of pending
`(dueTime, event)` pairs mirroring the `timeoutsRef` / `timeoutIds` arrays in
the source; cancelling (`clearAllTimeouts`, the unmount cleanups) empties that
list, exactly as `forEach(clearTimeout)` does, because every `setTimeout` call
in those components records its id there.
-/

namespace K8s

/-! ## NetworkPolicySimulator: the allow/deny decider (`isBlocked`) -/

/-- `isBlocked` from `NetworkPolicySimulator.tsx`: with no policy everything is
allowed; with the policy active, ingress to the `database` pod is blocked
unless it comes from `api`. -/
def isBlocked (policyActive : Bool) (fromId toId : String) : Bool :=
  if !policyActive then false
  else if toId == "database" && fromId != "api" then true
  else false

/-! ## SchedulerPlayground: node-fit and the scheduling decision -/

/-- A mock node as in `SchedulerPlayground.tsx`; the optional `taints?` array
is modelled as a plain list, empty when absent. -/
structure Node where
  name : String
  totalCpu : Int
  totalMemory : Int
  usedCpu : Int
  usedMemory : Int
  taints : List String
deriving DecidableEq, Repr

/-- Result record of `getNodeFit`. -/
structure NodeFit where
  availCpu : Int
  availMem : Int
  cpuFit : Bool
  memFit : Bool
  fits : Bool
  hasTaint : Bool
deriving DecidableEq, Repr

/-- `getNodeFit` from `SchedulerPlayground.tsx`. -/
def getNodeFit (cpuReq memReq : Int) (node : Node) : NodeFit :=
  let availCpu := node.totalCpu - node.usedCpu
  let availMem := node.totalMemory - node.usedMemory
  let cpuFit := decide (cpuReq ≤ availCpu)
  let memFit := decide (memReq ≤ availMem)
  let hasTaint := decide (0 < node.taints.length)
  { availCpu := availCpu, availMem := availMem, cpuFit := cpuFit,
    memFit := memFit, fits := cpuFit && memFit && !hasTaint, hasTaint := hasTaint }

/-- The hardcoded node table of `SchedulerPlayground.tsx`. -/
def nodes : List Node :=
  [⟨"node-1", 4, 8, 1, 3, []⟩,
   ⟨"node-2", 2, 4, 1, 2, []⟩,
   ⟨"node-3", 8, 16, 6, 12, ["gpu=true:NoSchedule"]⟩]

/-- A candidate produced in `schedulePod`: the node paired with its fit data. -/
structure Candidate where
  node : Node
  fit : NodeFit
deriving DecidableEq, Repr

/-- Sort key of the `schedulePod` comparator: available CPU plus memory. -/
def candKey (c : Candidate) : Int := c.fit.availCpu + c.fit.availMem

/-- The `candidates` array of `schedulePod`: all nodes with their fit data,
filtered to those that fit. -/
def candidates (ns : List Node) (cpuReq memReq : Int) : List Candidate :=
  (ns.map (fun n => ⟨n, getNodeFit cpuReq memReq n⟩)).filter (fun c => c.fit.fits)

/-- The `.sort((a, b) => (b.availCpu + b.availMem) - (a.availCpu + a.availMem))`
call: a stable sort, descending by `candKey`. -/
def sortByKeyDesc (l : List Candidate) : List Candidate :=
  l.insertionSort (fun a b => candKey b ≤ candKey a)

/-- The node picked by `schedulePod`: head of the candidates sorted descending
by available resources; `none` is the pending outcome. -/
def pickNode (ns : List Node) (cpuReq memReq : Int) : Option Candidate :=
  (sortByKeyDesc (candidates ns cpuReq memReq)).head?

/-- The `PodPlacement` record set by `schedulePod`. -/
structure PodPlacement where
  nodeName : String
  reason : String
deriving DecidableEq, Repr

/-- The placement reported when no candidate fits. -/
def pendingPlacement : PodPlacement :=
  ⟨"", "No node has sufficient resources or all suitable nodes are tainted."⟩

/-- The decision computed inside the `schedulePod` timeout callback. -/
def scheduleDecision (ns : List Node) (cpuReq memReq : Int) : PodPlacement :=
  match pickNode ns cpuReq memReq with
  | none => pendingPlacement
  | some best =>
      ⟨best.node.name,
       "Best fit: " ++ toString best.fit.availCpu ++ " vCPU and " ++
         toString best.fit.availMem ++ " Gi available."⟩

/-! ## ConfigAccessPlayground: the RBAC verb check (`tryAccess`) -/

/-- The three roles of `RBAC_PERMISSIONS`. -/
inductive RbacRole
  | viewer
  | editor
  | admin
deriving DecidableEq, Repr

/-- The verb lists of `RBAC_PERMISSIONS` in `ConfigAccessPlayground.tsx`. -/
def rbacVerbs : RbacRole → List String
  | .viewer => ["get", "list", "watch"]
  | .editor => ["get", "list", "watch", "create", "update", "patch"]
  | .admin => ["get", "list", "watch", "create", "update", "patch", "delete"]

/-- Display name of a role, as interpolated into the reason strings. -/
def roleName : RbacRole → String
  | .viewer => "viewer"
  | .editor => "editor"
  | .admin => "admin"

/-- Outcome of one access attempt (`result` is true for `allowed`). -/
structure AccessOutcome where
  result : Bool
  reason : String
deriving DecidableEq, Repr

/-- The decision logic of `tryAccess` in `ConfigAccessPlayground.tsx`. -/
def tryAccess (role : RbacRole) (action : String) : AccessOutcome :=
  let allowed := (rbacVerbs role).contains action
  if allowed then
    ⟨true, "Role \"" ++ roleName role ++ "\" has \"" ++ action ++ "\" verb"⟩
  else
    ⟨false, "Role \"" ++ roleName role ++ "\" lacks \"" ++ action ++ "\" verb"⟩

/-! ## Progress store (`progressStore.ts`) -/

/-- The persisted progress state (section ids are small integers; the TS type
`SectionId` restricts them to 0–9 at compile time). -/
structure ProgressState where
  currentSection : Nat
  visitedSections : List Nat
  completedExercises : List Nat
deriving DecidableEq, Repr

/-- The initial store state: section 0 current, all ten sections pre-visited,
nothing completed. -/
def initialProgress : ProgressState :=
  ⟨0, [0, 1, 2, 3, 4, 5, 6, 7, 8, 9], []⟩

/-- The `.sort((a, b) => a - b)` call: stable ascending sort. -/
def jsSortAsc (l : List Nat) : List Nat := l.insertionSort (· ≤ ·)

/-- `markVisited` from `progressStore.ts` (`includes` is membership). -/
def markVisited (sec : Nat) (s : ProgressState) : ProgressState :=
  if sec ∈ s.visitedSections then s
  else { s with visitedSections := jsSortAsc (s.visitedSections ++ [sec]) }

/-- `setCurrentSection` from `progressStore.ts`: no-op when already current,
otherwise update the current section and mark it visited. -/
def setCurrentSection (sec : Nat) (s : ProgressState) : ProgressState :=
  if s.currentSection = sec then s
  else markVisited sec { s with currentSection := sec }

/-- `markExerciseComplete` from `progressStore.ts` (`includes` is membership). -/
def markExerciseComplete (sec : Nat) (s : ProgressState) : ProgressState :=
  if sec ∈ s.completedExercises then s
  else { s with completedExercises := jsSortAsc (s.completedExercises ++ [sec]) }

/-- `resetProgress` from `progressStore.ts`. -/
def resetProgress (_s : ProgressState) : ProgressState := initialProgress

/-- States of the store reachable from its initial state through the four
store actions; the `sec ≤ 9` side conditions mirror the TS `SectionId` type of
the actions' arguments. -/
inductive Reachable : ProgressState → Prop
  | init : Reachable initialProgress
  | setCur {s : ProgressState} (sec : Nat) (hs : sec ≤ 9) :
      Reachable s → Reachable (setCurrentSection sec s)
  | visit {s : ProgressState} (sec : Nat) (hs : sec ≤ 9) :
      Reachable s → Reachable (markVisited sec s)
  | complete {s : ProgressState} (sec : Nat) (hs : sec ≤ 9) :
      Reachable s → Reachable (markExerciseComplete sec s)
  | reset {s : ProgressState} : Reachable s → Reachable (resetProgress s)

/-! ## Timer-driven components

A component with scheduled callbacks is a pair of its visible state and the
list of pending timers, in registration order, exactly as the source keeps
every created timeout id in a `useRef` array.  Firing picks the pending timer
with the least due time, earliest-registered first on ties (browser timer
ordering), runs the event's effect and appends any newly scheduled timers. -/

/-- A timer-driven component: visible state, current time, and the pending
timers (absolute due time, event) in registration order. -/
structure Sys (σ ε : Type) where
  comp : σ
  now : Nat
  pending : List (Nat × ε)
deriving DecidableEq, Repr

/-- Extract the pending timer with the least due time (the first such timer in
registration order), together with the remaining timers in order. -/
def popEarliest {ε : Type} : List (Nat × ε) → Option ((Nat × ε) × List (Nat × ε))
  | [] => none
  | x :: xs =>
    match popEarliest xs with
    | none => some (x, [])
    | some (y, ys) => if x.1 ≤ y.1 then some (x, xs) else some (y, x :: ys)

/-- Fire the next due timer: `fire` maps the component state and the event to
the new state plus newly scheduled timers given as (delay, event) pairs. -/
def stepSys {σ ε : Type} (fire : σ → ε → σ × List (Nat × ε)) (s : Sys σ ε) :
    Sys σ ε :=
  match popEarliest s.pending with
  | none => s
  | some ((t, e), rest) =>
    let fired := fire s.comp e
    ⟨fired.1, max s.now t, rest ++ fired.2.map (fun d => (t + d.1, d.2))⟩

/-! ## RolloutSimulator (`RolloutSimulator.tsx`)

The rolling update schedules, per pod index `i`, the four chained phases
create → ready → terminate-old → remove-old, with an extra completion timer
after the last removal.  Delays: the source uses `STEP_DURATION = 1400` with
`baseDelay = i * 1400 * 2.2`, phase offsets `1400`, `1400 * 0.5`, `1400 * 0.7`
and `400`, modelled with exact integer milliseconds (`2.2 · 1400 = 3080`).
The random pod-name suffix and the `Date.now()` component of pod ids only make
display strings unique; they are modelled by the pod index. -/

/-- Pod status as in `RolloutSimulator.tsx`. -/
inductive PodStatus
  | Running
  | Creating
  | Terminating
deriving DecidableEq, Repr

/-- Pod version as in `RolloutSimulator.tsx`. -/
inductive PodVersion
  | v1
  | v2
deriving DecidableEq, Repr

/-- A pod card of the rollout simulator. -/
structure Pod where
  id : String
  version : PodVersion
  status : PodStatus
  name : String
deriving DecidableEq, Repr

/-- Log entry severity (`LogEntry.type` in the source). -/
inductive LogType
  | info
  | success
  | warn
  | error
deriving DecidableEq, Repr

/-- The messages emitted through `addLog`, one constructor per call site of
`startRollout` / the phase callbacks / `reset`. -/
inductive LogMsg
  | rolloutStarted
  | surgeInfo
  | creating (name : String)
  | podIsReady (name : String)
  | terminating (name : String)
  | deleted (name : String)
  | rolloutComplete
deriving DecidableEq, Repr

/-- One line of the event log. -/
structure LogEntry where
  msg : LogMsg
  type : LogType
deriving DecidableEq, Repr

/-- `SimulationPhase` of `RolloutSimulator.tsx`. -/
inductive SimulationPhase
  | idle
  | rolling
  | complete
  | rollingBack
  | rolledBack
deriving DecidableEq, Repr

/-- The component state of the rollout simulator. -/
structure RolloutState where
  pods : List Pod
  phase : SimulationPhase
  progress : Nat
  log : List LogEntry
deriving DecidableEq, Repr

/-- `buildInitialPods`: four running v1 pods (random name suffix modelled by
the index). -/
def buildInitialPods : List Pod :=
  [1, 2, 3, 4].map (fun i =>
    ⟨"v1-" ++ toString i, .v1, .Running, "my-app-v1-" ++ toString i⟩)

/-- Name of the v2 pod created for pod index `i`. -/
def v2PodName (i : Nat) : String := "my-app-v2-" ++ toString (i + 1)

/-- Id of the v2 pod created for pod index `i`. -/
def v2PodId (i : Nat) : String := "v2-" ++ toString (i + 1)

/-- `addLog`: append one entry to the event log. -/
def addLog (m : LogMsg) (t : LogType) (s : RolloutState) : RolloutState :=
  { s with log := s.log ++ [⟨m, t⟩] }

/-- Mark the first pod satisfying `pred` with `upd`, returning the matched pod
and the updated list (the `findIndex` + copy-update pattern of the source). -/
def markFirst (pred : Pod → Bool) (upd : Pod → Pod) : List Pod → Option (Pod × List Pod)
  | [] => none
  | p :: ps =>
    if pred p then some (p, upd p :: ps)
    else
      match markFirst pred upd ps with
      | none => none
      | some (q, qs) => some (q, p :: qs)

/-- Remove the first pod satisfying `pred`, returning the removed pod and the
remaining list (the `findIndex` + `splice` pattern of the source). -/
def removeFirst (pred : Pod → Bool) : List Pod → Option (Pod × List Pod)
  | [] => none
  | p :: ps =>
    if pred p then some (p, ps)
    else
      match removeFirst pred ps with
      | none => none
      | some (q, qs) => some (q, p :: qs)

/-- The timer events of `startRollout`, one per `scheduleTimeout` call site. -/
inductive REvent
  | createPod (i : Nat)
  | podReady (i : Nat)
  | termOld (i : Nat)
  | removeOld (i : Nat)
  | completeEvent
deriving DecidableEq, Repr

/-- Effect of each scheduled rollout callback (phases A–D of `startRollout`
and the completion timer). -/
def rolloutFire (s : RolloutState) : REvent → RolloutState × List (Nat × REvent)
  | .createPod i =>
    let s := addLog (.creating (v2PodName i)) .warn s
    let s := { s with pods := s.pods ++ [⟨v2PodId i, .v2, .Creating, v2PodName i⟩] }
    (s, [(1400, .podReady i)])
  | .podReady i =>
    let s := addLog (.podIsReady (v2PodName i)) .success s
    let s := { s with
      pods := s.pods.map (fun p =>
        if p.id = v2PodId i then { p with status := .Running } else p) }
    (s, [(700, .termOld i)])
  | .termOld i =>
    let s :=
      match markFirst (fun p => p.version == .v1 && p.status == .Running)
          (fun p => { p with status := .Terminating }) s.pods with
      | none => s
      | some (p, ps) => { addLog (.terminating p.name) .error s with pods := ps }
    (s, [(980, .removeOld i)])
  | .removeOld i =>
    let s :=
      match removeFirst (fun p => p.version == .v1 && p.status == .Terminating) s.pods with
      | none => s
      | some (p, ps) => { addLog (.deleted p.name) .info s with pods := ps }
    let s := { s with progress := ((i + 1) * 100) / 4 }
    (s, if i + 1 == 4 then [(400, .completeEvent)] else [])
  | .completeEvent =>
    let s := { s with phase := .complete }
    let s := addLog .rolloutComplete .success s
    (s, [])

/-- `startRollout`: clear all pending timers, reset the visible state to a
fresh rolling state with the two intro log lines, and schedule the four
per-pod replacement chains at `i * 3080` ms. -/
def rolloutStart (s : Sys RolloutState REvent) : Sys RolloutState REvent :=
  ⟨{ pods := buildInitialPods, phase := .rolling, progress := 0,
     log := [⟨.rolloutStarted, .info⟩, ⟨.surgeInfo, .info⟩] },
   s.now,
   (List.range 4).map (fun i => (s.now + i * 3080, REvent.createPod i))⟩

/-- `reset` of `RolloutSimulator.tsx`: `clearAllTimeouts` then restore the
idle state. -/
def rolloutReset (s : Sys RolloutState REvent) : Sys RolloutState REvent :=
  ⟨{ pods := buildInitialPods, phase := .idle, progress := 0, log := [] },
   s.now, []⟩

/-- The simulator as mounted: initial pods, idle, no timers. -/
def rolloutInit : Sys RolloutState REvent :=
  ⟨{ pods := buildInitialPods, phase := .idle, progress := 0, log := [] }, 0, []⟩

/-! ## ControlPlaneJourney (`ControlPlaneJourney.tsx`)

The journey is a six-step pipeline (`STEPS.length = 6`).  `advanceTo` animates
the connector for 480 ms before moving the cursor; `runAll` is an async loop
alternating 480 ms traversal sleeps and 1000 ms dwell sleeps, re-checking
`runAllRef` / `isMounted` at each resumption; every timeout id lands in
`timeoutIds`, which `handleReset` and the unmount cleanup clear. -/

/-- The step ids of the `STEPS` array. -/
def stepIds : List String :=
  ["kubectl", "apiserver", "etcd", "scheduler", "kubelet", "running"]

/-- `STEPS.length`. -/
def stepsLength : Nat := stepIds.length

/-- The component state of the journey: cursor, connector animation, the
`isRunningAll` state, the `runAllRef` liveness ref and the `isMounted` ref. -/
structure JourneyState where
  activeIndex : Nat
  traversingIndex : Option Nat
  isRunningAll : Bool
  runAllRef : Bool
  mounted : Bool
deriving DecidableEq, Repr

/-- The journey's timer events: the `advanceTo` 480 ms callback and the two
resumption points of the `runAll` loop (after `sleep(480)` and after
`sleep(1000)`). -/
inductive JEvent
  | advanceFire (next : Nat)
  | runAllAdvance (current : Nat)
  | runAllDwell (current : Nat)
deriving DecidableEq, Repr

/-- Effect of each journey timer.
* `advanceFire next`: the `advanceTo` callback — bail out when unmounted, else
  clear the connector animation and move the cursor to `next`.
* `runAllAdvance current`: resumption after `sleep(480)` — break (clearing the
  running flags) unless `runAllRef` and mounted, else move the cursor to
  `current + 1` and sleep 1000 ms.
* `runAllDwell current`: resumption after `sleep(1000)` — re-check the loop
  condition `current < STEPS.length - 1 && runAllRef`; continue by animating
  the next connector and sleeping 480 ms, or exit clearing the flags. -/
def journeyFire (s : JourneyState) : JEvent → JourneyState × List (Nat × JEvent)
  | .advanceFire next =>
    if !s.mounted then (s, [])
    else ({ s with traversingIndex := none, activeIndex := next }, [])
  | .runAllAdvance current =>
    if !s.runAllRef || !s.mounted then
      ({ s with runAllRef := false, isRunningAll := false }, [])
    else
      ({ s with traversingIndex := none, activeIndex := current + 1 },
       [(1000, .runAllDwell (current + 1))])
  | .runAllDwell current =>
    if current < stepsLength - 1 && s.runAllRef then
      ({ s with traversingIndex := some current }, [(480, .runAllAdvance current)])
    else
      ({ s with runAllRef := false, isRunningAll := false }, [])

/-- `advanceTo(nextIndex)`: no-op unless `activeIndex < nextIndex <
STEPS.length` (the argument is a JS number, so also negative requests fall in
the first branch); otherwise animate the connector and schedule the cursor
move after 480 ms. -/
def advanceTo (next : Int) (s : Sys JourneyState JEvent) : Sys JourneyState JEvent :=
  if next ≤ (s.comp.activeIndex : Int) ∨ (stepsLength : Int) ≤ next then s
  else
    ⟨{ s.comp with traversingIndex := some (next.toNat - 1) },
     s.now, s.pending ++ [(s.now + 480, .advanceFire next.toNat)]⟩

/-- `runAll`: no-op while `isRunningAll`; otherwise raise the running flags
and execute the loop up to its first `await` — animate the connector out of
the current step and sleep 480 ms, or exit at once when already at the last
step. -/
def journeyRunAll (s : Sys JourneyState JEvent) : Sys JourneyState JEvent :=
  if s.comp.isRunningAll then s
  else
    let c := { s.comp with runAllRef := true, isRunningAll := true }
    if c.activeIndex < stepsLength - 1 then
      ⟨{ c with traversingIndex := some c.activeIndex },
       s.now, s.pending ++ [(s.now + 480, .runAllAdvance c.activeIndex)]⟩
    else
      ⟨{ c with runAllRef := false, isRunningAll := false }, s.now, s.pending⟩

/-- The `PipelineNode` click handler: jump back to a current-or-earlier step,
stopping any run-all in flight, without scheduling or replaying anything (it
does not clear pending timers — their callbacks re-check `runAllRef`). -/
def nodeClick (i : Nat) (s : Sys JourneyState JEvent) : Sys JourneyState JEvent :=
  if i ≤ s.comp.activeIndex then
    ⟨{ s.comp with
        runAllRef := false, isRunningAll := false,
        traversingIndex := none, activeIndex := i }, s.now, s.pending⟩
  else s

/-- `handleReset`: stop the run-all loop, clear the animation, return the
cursor to 0 and clear every outstanding timer. -/
def handleReset (s : Sys JourneyState JEvent) : Sys JourneyState JEvent :=
  ⟨{ s.comp with
      runAllRef := false, isRunningAll := false,
      traversingIndex := none, activeIndex := 0 }, s.now, []⟩

/-- The journey as mounted. -/
def journeyInit : Sys JourneyState JEvent :=
  ⟨{ activeIndex := 0, traversingIndex := none, isRunningAll := false,
     runAllRef := false, mounted := true }, 0, []⟩

/-! ## NetworkPolicySimulator traffic tests (`sendTraffic`) -/

/-- One entry of the traffic log. -/
structure TrafficTest where
  id : Nat
  fromId : String
  toId : String
  allowed : Bool
deriving DecidableEq, Repr

/-- The component state of the network-policy simulator (with the module-level
`testId` counter and the `isMounted` ref). -/
structure NetPolState where
  policyActive : Bool
  sendingFrom : Option String
  sendingTo : Option String
  animating : Bool
  tests : List TrafficTest
  lastResult : Option (Bool × String × String)
  nextTestId : Nat
  mounted : Bool
deriving DecidableEq, Repr

/-- The single timer event: resolution of a traffic test after 800 ms. -/
inductive NEvent
  | resolve (fromId toId : String)
deriving DecidableEq, Repr

/-- The `sendTraffic` timeout callback: bail out when unmounted, else record
the decision (keeping the eight most recent tests) and end the animation. -/
def netpolFire (s : NetPolState) : NEvent → NetPolState × List (Nat × NEvent)
  | .resolve f t =>
    if !s.mounted then (s, [])
    else
      let allowed := !isBlocked s.policyActive f t
      let newId := s.nextTestId + 1
      ({ s with
         tests := (⟨newId, f, t, allowed⟩ :: s.tests).take 8,
         lastResult := some (allowed, f, t),
         sendingFrom := none, sendingTo := none,
         animating := false, nextTestId := newId }, [])

/-- `sendTraffic(from, to)`: no-op while animating or for a self-loop;
otherwise start the animation and schedule the resolution after 800 ms. -/
def sendTraffic (f t : String) (s : Sys NetPolState NEvent) : Sys NetPolState NEvent :=
  if s.comp.animating || f == t then s
  else
    ⟨{ s.comp with
        animating := true, sendingFrom := some f,
        sendingTo := some t, lastResult := none },
     s.now, s.pending ++ [(s.now + 800, .resolve f t)]⟩

/-- The unmount cleanup of `NetworkPolicySimulator.tsx`: drop the mounted flag
and clear every outstanding timer. -/
def netpolUnmount (s : Sys NetPolState NEvent) : Sys NetPolState NEvent :=
  ⟨{ s.comp with mounted := false }, s.now, []⟩

/-! ## Derived scenario states and predicates used by the theorems -/

/-- The rollout run to quiescence: `startRollout` on the freshly mounted
simulator, then enough timer firings to drain the queue (17 scheduled
callbacks fire in total; extra steps are identity). -/
def rolloutFinal : Sys RolloutState REvent :=
  (stepSys rolloutFire)^[20] (rolloutStart rolloutInit)

/-- A mid-rollout state: two timers (create pod 1, pod 1 ready) have fired. -/
def rolloutMidRun : Sys RolloutState REvent :=
  (stepSys rolloutFire)^[2] (rolloutStart rolloutInit)

/-- Is this log entry a pod-creation event (`Creating pod ...`)? -/
def isCreationEvent (e : LogEntry) : Bool :=
  match e.msg with
  | .creating _ => true
  | _ => false

/-- Is this log entry a pod-termination event (`Terminating pod ...`)? -/
def isTerminationEvent (e : LogEntry) : Bool :=
  match e.msg with
  | .terminating _ => true
  | _ => false

/-- The journey advanced twice (each `advanceTo` timer fired): cursor at 2. -/
def journeyAtTwo : Sys JourneyState JEvent :=
  stepSys journeyFire (advanceTo 2 (stepSys journeyFire (advanceTo 1 journeyInit)))

/-- Validity of the progress store state: the current section and every stored
section id is one of the ten sections 0–9. -/
def ValidProgress (s : ProgressState) : Prop :=
  s.currentSection ≤ 9 ∧ (∀ x ∈ s.visitedSections, x ≤ 9) ∧
    ∀ x ∈ s.completedExercises, x ≤ 9

/-- Every index carried by a pending journey timer is a step index
(≤ `STEPS.length - 1`, i.e. ≤ 5; `runAllAdvance` moves the cursor to
`current + 1`). -/
def JEventOK : JEvent → Prop
  | .advanceFire next => next ≤ stepsLength - 1
  | .runAllAdvance current => current + 1 ≤ stepsLength - 1
  | .runAllDwell current => current ≤ stepsLength - 1

/-- The journey invariant: the cursor lies within `[0, STEPS.length]` and all
pending timers carry step indices. -/
def JourneyInv (s : Sys JourneyState JEvent) : Prop :=
  s.comp.activeIndex ≤ stepsLength ∧ ∀ te ∈ s.pending, JEventOK te.2

/-! ## Helper lemmas -/

theorem stepSys_pending_nil {σ ε : Type} (fire : σ → ε → σ × List (Nat × ε))
    (s : Sys σ ε) (h : s.pending = []) : stepSys fire s = s := by
  unfold stepSys
  rw [h]
  rfl

theorem iterate_stepSys_pending_nil {σ ε : Type} (fire : σ → ε → σ × List (Nat × ε))
    (s : Sys σ ε) (h : s.pending = []) : ∀ n : Nat, (stepSys fire)^[n] s = s := by
  intro n
  induction n with
  | zero => rfl
  | succ n ih => rw [Function.iterate_succ_apply, stepSys_pending_nil fire s h, ih]

/-! ## C1 -/

/-- C1: once `stop()`/`reset()` (or the unmount cleanup) has run, no
previously scheduled timer callback mutates the state again — for each of the
three sequencers, the cancel operation empties the pending-timer list, and any
number of further timer steps leaves the component state untouched. -/
theorem cancel_point_frames_state :
    (∀ (s : Sys RolloutState REvent) (n : Nat),
        ((stepSys rolloutFire)^[n] (rolloutReset s)).comp = (rolloutReset s).comp) ∧
    (∀ (s : Sys JourneyState JEvent) (n : Nat),
        ((stepSys journeyFire)^[n] (handleReset s)).comp = (handleReset s).comp) ∧
    (∀ (s : Sys NetPolState NEvent) (n : Nat),
        ((stepSys netpolFire)^[n] (netpolUnmount s)).comp = (netpolUnmount s).comp) := by
  refine ⟨fun s n => ?_, fun s n => ?_, fun s n => ?_⟩ <;>
    rw [iterate_stepSys_pending_nil _ _ rfl n]

/-! ## C2 -/

/-- C2: running the rollout to completion from the initial four-pod v1 state
emits exactly four creation and four termination events, strictly alternating
with each creation first, and ends with four running v2 pods. -/
theorem rollout_end_to_end :
    rolloutFinal.comp.log.countP isCreationEvent = 4 ∧
    rolloutFinal.comp.log.countP isTerminationEvent = 4 ∧
    rolloutFinal.comp.log.filter (fun e => isCreationEvent e || isTerminationEvent e) =
      [⟨.creating "my-app-v2-1", .warn⟩, ⟨.terminating "my-app-v1-1", .error⟩,
       ⟨.creating "my-app-v2-2", .warn⟩, ⟨.terminating "my-app-v1-2", .error⟩,
       ⟨.creating "my-app-v2-3", .warn⟩, ⟨.terminating "my-app-v1-3", .error⟩,
       ⟨.creating "my-app-v2-4", .warn⟩, ⟨.terminating "my-app-v1-4", .error⟩] ∧
    rolloutFinal.comp.pods.length = 4 ∧
    rolloutFinal.comp.pods.all
      (fun p => p.version == PodVersion.v2 && p.status == PodStatus.Running) = true ∧
    rolloutFinal.comp.phase = .complete ∧
    rolloutFinal.pending = [] := by
  refine ⟨?_, ?_, ?_, ?_, ?_, ?_, ?_⟩ <;> rfl

/-! ## C3 -/

/-- C3: with the policy inactive everything is allowed; with it active,
traffic into `database` is allowed exactly from `api`, and traffic to any
other destination is allowed. -/
theorem netpol_decider_correct :
    (∀ fromId toId : String, isBlocked false fromId toId = false) ∧
    (∀ fromId : String, (!isBlocked true fromId "database") = (fromId == "api")) ∧
    (∀ fromId toId : String, toId ≠ "database" → isBlocked true fromId toId = false) := by
  refine ⟨fun fromId toId => rfl, fun fromId => ?_, fun fromId toId ht => ?_⟩
  · by_cases h : fromId = "api"
    · subst h
      decide
    · have hb : (fromId == "api") = false := beq_eq_false_iff_ne.mpr h
      simp [isBlocked, hb, h]
  · have hne : (toId == "database") = false := beq_eq_false_iff_ne.mpr ht
    simp [isBlocked, hne]

theorem netpol_decider_correct_witness :
    isBlocked false "frontend" "database" = false ∧
    isBlocked true "frontend" "api" = false :=
  ⟨netpol_decider_correct.1 "frontend" "database",
   netpol_decider_correct.2.2 "frontend" "api" (by decide)⟩

/-! ## Scheduler lemmas (C4, C7) -/

instance : IsTotal Candidate (fun a b => candKey b ≤ candKey a) :=
  ⟨fun a b => le_total (candKey b) (candKey a)⟩

instance : IsTrans Candidate (fun a b => candKey b ≤ candKey a) :=
  ⟨fun _ _ _ hab hbc => le_trans hbc hab⟩

theorem candidates_mem {ns : List Node} {c m : Int} {x : Candidate}
    (hx : x ∈ candidates ns c m) :
    x.node ∈ ns ∧ x.fit = getNodeFit c m x.node ∧ x.fit.fits = true := by
  unfold candidates at hx
  rw [List.mem_filter] at hx
  obtain ⟨hmem, hfits⟩ := hx
  rw [List.mem_map] at hmem
  obtain ⟨n, hn, rfl⟩ := hmem
  exact ⟨hn, rfl, hfits⟩

theorem candidates_mem_of {ns : List Node} {c m : Int} {n : Node}
    (hn : n ∈ ns) (hf : (getNodeFit c m n).fits = true) :
    (⟨n, getNodeFit c m n⟩ : Candidate) ∈ candidates ns c m := by
  unfold candidates
  rw [List.mem_filter]
  exact ⟨List.mem_map.mpr ⟨n, hn, rfl⟩, hf⟩

theorem sortByKeyDesc_perm (l : List Candidate) : (sortByKeyDesc l).Perm l :=
  List.perm_insertionSort _ l

theorem sortByKeyDesc_sorted (l : List Candidate) :
    List.Sorted (fun a b => candKey b ≤ candKey a) (sortByKeyDesc l) :=
  List.sorted_insertionSort _ l

theorem fits_no_taint {c m : Int} {n : Node} (hf : (getNodeFit c m n).fits = true) :
    n.taints = [] := by
  unfold getNodeFit at hf
  simp only [Bool.and_eq_true, Bool.not_eq_true', decide_eq_false_iff_not] at hf
  exact List.length_eq_zero.mp (Nat.le_zero.mp (Nat.not_lt.mp hf.2))

theorem pickNode_none_iff {ns : List Node} {c m : Int} :
    pickNode ns c m = none ↔ ∀ n ∈ ns, (getNodeFit c m n).fits = false := by
  unfold pickNode
  rw [List.head?_eq_none_iff]
  constructor
  · intro h n hn
    by_contra hf
    have hf : (getNodeFit c m n).fits = true := by
      cases hfit : (getNodeFit c m n).fits
      · exact absurd hfit hf
      · rfl
    have hc : (⟨n, getNodeFit c m n⟩ : Candidate) ∈ candidates ns c m :=
      candidates_mem_of hn hf
    have : (⟨n, getNodeFit c m n⟩ : Candidate) ∈ sortByKeyDesc (candidates ns c m) :=
      (sortByKeyDesc_perm _).mem_iff.mpr hc
    rw [h] at this
    exact absurd this (List.not_mem_nil _)
  · intro h
    have hemp : candidates ns c m = [] := by
      unfold candidates
      rw [List.filter_eq_nil_iff]
      intro cand hcand
      rw [List.mem_map] at hcand
      obtain ⟨n, hn, rfl⟩ := hcand
      simp [h n hn]
    rw [hemp]
    rfl

theorem pickNode_some {ns : List Node} {c m : Int} {best : Candidate}
    (h : pickNode ns c m = some best) :
    best.node ∈ ns ∧ best.fit = getNodeFit c m best.node ∧ best.fit.fits = true := by
  unfold pickNode at h
  have hmem : best ∈ sortByKeyDesc (candidates ns c m) := by
    cases hl : sortByKeyDesc (candidates ns c m) with
    | nil => rw [hl] at h; cases h
    | cons a tail =>
      rw [hl, List.head?_cons, Option.some_inj] at h
      rw [← h]
      exact List.mem_cons_self a tail
  exact candidates_mem ((sortByKeyDesc_perm _).mem_iff.mp hmem)

theorem pickNode_maximal {ns : List Node} {c m : Int} {best : Candidate}
    (h : pickNode ns c m = some best) :
    ∀ n ∈ ns, (getNodeFit c m n).fits = true →
      (getNodeFit c m n).availCpu + (getNodeFit c m n).availMem ≤ candKey best := by
  intro n hn hf
  have hmem : (⟨n, getNodeFit c m n⟩ : Candidate) ∈ sortByKeyDesc (candidates ns c m) :=
    (sortByKeyDesc_perm _).mem_iff.mpr (candidates_mem_of hn hf)
  have hsorted := sortByKeyDesc_sorted (candidates ns c m)
  unfold pickNode at h
  cases hl : sortByKeyDesc (candidates ns c m) with
  | nil => rw [hl] at h; cases h
  | cons a tail =>
    rw [hl, List.head?_cons, Option.some_inj] at h
    rw [hl] at hmem hsorted
    subst h
    rcases List.mem_cons.mp hmem with heq | htail
    · rw [← heq]
      exact le_refl _
    · exact (List.sorted_cons.mp hsorted).1 _ htail

/-! ## C4 -/

/-- C4: the scheduler yields the pending outcome exactly when no node both
fits the requested CPU and memory in its free capacity and is untainted; a
selected node always fits and carries no taint. -/
theorem scheduler_pending_iff :
    ∀ (ns : List Node) (cpuReq memReq : Int),
      (pickNode ns cpuReq memReq = none ↔
        ∀ n ∈ ns, (getNodeFit cpuReq memReq n).fits = false) ∧
      (pickNode ns cpuReq memReq = none →
        scheduleDecision ns cpuReq memReq = pendingPlacement) ∧
      (∀ best : Candidate, pickNode ns cpuReq memReq = some best →
        best.node ∈ ns ∧ (getNodeFit cpuReq memReq best.node).fits = true ∧
          best.node.taints = []) := by
  intro ns c m
  refine ⟨pickNode_none_iff, fun h => ?_, fun best h => ?_⟩
  · unfold scheduleDecision
    rw [h]
  · obtain ⟨hmem, hfit, hfits⟩ := pickNode_some h
    rw [hfit] at hfits
    exact ⟨hmem, hfits, fits_no_taint hfits⟩

theorem scheduler_pending_iff_witness :
    pickNode nodes 9 1 = none ∧
    scheduleDecision nodes 9 1 = pendingPlacement ∧
    (⟨"node-1", 4, 8, 1, 3, []⟩ : Node) ∈ nodes ∧
    (getNodeFit 1 2 ⟨"node-1", 4, 8, 1, 3, []⟩).fits = true ∧
    (⟨"node-1", 4, 8, 1, 3, []⟩ : Node).taints = [] := by
  have h91 := scheduler_pending_iff nodes 9 1
  have hnone : pickNode nodes 9 1 = none := h91.1.mpr (by decide)
  have h12 := (scheduler_pending_iff nodes 1 2).2.2
    ⟨⟨"node-1", 4, 8, 1, 3, []⟩, getNodeFit 1 2 ⟨"node-1", 4, 8, 1, 3, []⟩⟩ (by decide)
  exact ⟨hnone, h91.2.1 hnone, h12.1, h12.2.1, h12.2.2⟩

/-! ## C7 -/

/-- C7: the mock deciders are pure functions of their listed inputs — equal
rule tables, toggles and request parameters give equal decisions and reason
strings — and the scheduler's pick maximises summed free CPU + memory over
all fitting nodes. -/
theorem deciders_deterministic_best_fit :
    (∀ (r₁ r₂ : RbacRole) (a₁ a₂ : String), r₁ = r₂ → a₁ = a₂ →
       tryAccess r₁ a₁ = tryAccess r₂ a₂) ∧
    (∀ (p₁ p₂ : Bool) (f₁ f₂ t₁ t₂ : String), p₁ = p₂ → f₁ = f₂ → t₁ = t₂ →
       isBlocked p₁ f₁ t₁ = isBlocked p₂ f₂ t₂) ∧
    (∀ (ns₁ ns₂ : List Node) (c₁ c₂ m₁ m₂ : Int), ns₁ = ns₂ → c₁ = c₂ → m₁ = m₂ →
       scheduleDecision ns₁ c₁ m₁ = scheduleDecision ns₂ c₂ m₂) ∧
    (∀ (ns : List Node) (cpuReq memReq : Int) (best : Candidate),
       pickNode ns cpuReq memReq = some best →
       ∀ n ∈ ns, (getNodeFit cpuReq memReq n).fits = true →
         (getNodeFit cpuReq memReq n).availCpu + (getNodeFit cpuReq memReq n).availMem ≤
           candKey best) := by
  refine ⟨?_, ?_, ?_, ?_⟩
  · intro r₁ r₂ a₁ a₂ hr ha
    rw [hr, ha]
  · intro p₁ p₂ f₁ f₂ t₁ t₂ hp hf ht
    rw [hp, hf, ht]
  · intro ns₁ ns₂ c₁ c₂ m₁ m₂ hn hc hm
    rw [hn, hc, hm]
  · intro ns c m best h
    exact pickNode_maximal h

theorem deciders_deterministic_best_fit_witness :
    tryAccess RbacRole.viewer "get" = tryAccess RbacRole.viewer "get" ∧
    isBlocked true "frontend" "database" = isBlocked true "frontend" "database" ∧
    scheduleDecision nodes 1 2 = scheduleDecision nodes 1 2 ∧
    (getNodeFit 1 2 ⟨"node-2", 2, 4, 1, 2, []⟩).availCpu +
        (getNodeFit 1 2 ⟨"node-2", 2, 4, 1, 2, []⟩).availMem ≤
      candKey ⟨⟨"node-1", 4, 8, 1, 3, []⟩, getNodeFit 1 2 ⟨"node-1", 4, 8, 1, 3, []⟩⟩ := by
  have h := deciders_deterministic_best_fit
  refine ⟨h.1 _ _ _ _ rfl rfl, h.2.1 _ _ _ _ _ _ rfl rfl rfl,
    h.2.2.1 _ _ _ _ _ _ rfl rfl rfl, ?_⟩
  exact h.2.2.2 nodes 1 2
    ⟨⟨"node-1", 4, 8, 1, 3, []⟩, getNodeFit 1 2 ⟨"node-1", 4, 8, 1, 3, []⟩⟩
    (by decide) ⟨"node-2", 2, 4, 1, 2, []⟩ (by decide) (by decide)

/-! ## C5 (corrected) -/

/-- C5 counterexample: `startRollout` invoked while the rollout is already
`rolling` is not a no-op — it rebuilds the pod list and schedules a fresh
batch of timers. -/
theorem start_while_running_cex :
    rolloutMidRun.comp.phase = .rolling ∧
    (rolloutStart rolloutMidRun).comp.pods ≠ rolloutMidRun.comp.pods ∧
    (1400, REvent.createPod 0) ∈ (rolloutStart rolloutMidRun).pending ∧
    (1400, REvent.createPod 0) ∉ rolloutMidRun.pending := by
  refine ⟨rfl, by decide, by decide, by decide⟩

/-- C5 (amended): of the start operations, `runAll` and `sendTraffic` really
are no-ops while their running flag is set; `startRollout` (and `schedulePod`)
instead cancel pending work and restart, and only the UI's disabled buttons
prevent re-entry. -/
theorem start_noop_while_running :
    (∀ s : Sys JourneyState JEvent, s.comp.isRunningAll = true → journeyRunAll s = s) ∧
    (∀ (s : Sys NetPolState NEvent) (f t : String), s.comp.animating = true →
       sendTraffic f t s = s) := by
  constructor
  · intro s h
    simp [journeyRunAll, h]
  · intro s f t h
    simp [sendTraffic, h]

theorem start_noop_while_running_witness :
    journeyRunAll ⟨⟨2, none, true, true, true⟩, 0, []⟩ = ⟨⟨2, none, true, true, true⟩, 0, []⟩ ∧
    sendTraffic "frontend" "api" ⟨⟨false, none, none, true, [], none, 0, true⟩, 0, []⟩ =
      ⟨⟨false, none, none, true, [], none, 0, true⟩, 0, []⟩ :=
  ⟨start_noop_while_running.1 _ rfl, start_noop_while_running.2 _ "frontend" "api" rfl⟩

/-! ## C6 (corrected) -/

/-- C6 counterexample: from cursor 2, `advanceTo(1)` and `advanceTo(0)` do
not move the cursor backward — they are no-ops. -/
theorem advanceTo_backward_cex :
    journeyAtTwo.comp.activeIndex = 2 ∧
    advanceTo 1 journeyAtTwo = journeyAtTwo ∧
    advanceTo 0 journeyAtTwo = journeyAtTwo := by
  refine ⟨rfl, by decide, by decide⟩

/-- C6 (amended): `advanceTo(index)` only moves forward — any
`index ≤ activeIndex` (including negatives) or `index ≥ STEPS.length` is a
no-op; a forward request schedules the move, whose timer sets the cursor to
`index`; backward jumps to completed steps go through the pipeline-node click
handler, which sets the cursor directly without scheduling anything. -/
theorem advanceTo_forward_only :
    (∀ (s : Sys JourneyState JEvent) (next : Int),
       next ≤ (s.comp.activeIndex : Int) ∨ (stepsLength : Int) ≤ next →
       advanceTo next s = s) ∧
    (∀ (s : Sys JourneyState JEvent) (next : Int),
       (s.comp.activeIndex : Int) < next → next < (stepsLength : Int) →
       (advanceTo next s).pending = s.pending ++ [(s.now + 480, .advanceFire next.toNat)] ∧
       (advanceTo next s).comp.activeIndex = s.comp.activeIndex) ∧
    (∀ (c : JourneyState) (next : Nat), c.mounted = true →
       journeyFire c (.advanceFire next) =
         ({ c with traversingIndex := none, activeIndex := next }, [])) ∧
    (∀ (s : Sys JourneyState JEvent) (i : Nat), i ≤ s.comp.activeIndex →
       (nodeClick i s).comp.activeIndex = i ∧ (nodeClick i s).pending = s.pending) := by
  refine ⟨?_, ?_, ?_, ?_⟩
  · intro s next h
    simp [advanceTo, h]
  · intro s next h1 h2
    have hcond : ¬(next ≤ (s.comp.activeIndex : Int) ∨ (stepsLength : Int) ≤ next) := by
      push_neg
      exact ⟨h1, h2⟩
    simp [advanceTo, hcond]
  · intro c next h
    simp [journeyFire, h]
  · intro s i h
    simp [nodeClick, h]

theorem advanceTo_forward_only_witness :
    advanceTo 7 journeyAtTwo = journeyAtTwo ∧
    (advanceTo 3 journeyAtTwo).pending = [(1440, .advanceFire 3)] ∧
    (advanceTo 3 journeyAtTwo).comp.activeIndex = 2 ∧
    journeyFire journeyAtTwo.comp (.advanceFire 3) =
      ({ journeyAtTwo.comp with traversingIndex := none, activeIndex := 3 }, []) ∧
    (nodeClick 1 journeyAtTwo).comp.activeIndex = 1 ∧
    (nodeClick 1 journeyAtTwo).pending = journeyAtTwo.pending := by
  have h := advanceTo_forward_only
  have h2 := h.2.1 journeyAtTwo 3 (by decide) (by decide)
  have h4 := h.2.2.2 journeyAtTwo 1 (by decide)
  refine ⟨h.1 journeyAtTwo 7 (by decide), ?_, h2.2, h.2.2.1 journeyAtTwo.comp 3 (by decide),
    h4.1, h4.2⟩
  rw [h2.1]
  decide

/-! ## Progress-store lemmas (C8, C9, C10) -/

theorem jsSortAsc_perm (l : List Nat) : (jsSortAsc l).Perm l :=
  List.perm_insertionSort _ l

theorem jsSortAsc_mem {l : List Nat} {x : Nat} : x ∈ jsSortAsc l ↔ x ∈ l :=
  (jsSortAsc_perm l).mem_iff

theorem jsSortAsc_sorted_lt {l : List Nat} (h : l.Nodup) :
    (jsSortAsc l).Sorted (· < ·) :=
  (List.sorted_insertionSort _ l).lt_of_le ((jsSortAsc_perm l).nodup_iff.mpr h)

theorem sortedInsert_strict {l : List Nat} {x : Nat} (hl : l.Sorted (· < ·))
    (hx : x ∉ l) : (jsSortAsc (l ++ [x])).Sorted (· < ·) :=
  jsSortAsc_sorted_lt (List.nodup_append.mpr
    ⟨hl.nodup, List.nodup_singleton x, List.disjoint_singleton.mpr hx⟩)

theorem markVisited_completed (sec : Nat) (s : ProgressState) :
    (markVisited sec s).completedExercises = s.completedExercises := by
  unfold markVisited
  split <;> rfl

theorem markExerciseComplete_visited (sec : Nat) (s : ProgressState) :
    (markExerciseComplete sec s).visitedSections = s.visitedSections := by
  unfold markExerciseComplete
  split <;> rfl

theorem markExerciseComplete_of_mem {sec : Nat} {s : ProgressState}
    (h : sec ∈ s.completedExercises) : markExerciseComplete sec s = s := by
  simp [markExerciseComplete, h]

theorem markVisited_sorted {sec : Nat} {s : ProgressState}
    (h : s.visitedSections.Sorted (· < ·)) :
    (markVisited sec s).visitedSections.Sorted (· < ·) := by
  by_cases hc : sec ∈ s.visitedSections
  · simpa [markVisited, hc] using h
  · simpa [markVisited, hc] using sortedInsert_strict h hc

theorem markExerciseComplete_sorted {sec : Nat} {s : ProgressState}
    (h : s.completedExercises.Sorted (· < ·)) :
    (markExerciseComplete sec s).completedExercises.Sorted (· < ·) := by
  by_cases hc : sec ∈ s.completedExercises
  · simpa [markExerciseComplete, hc] using h
  · simpa [markExerciseComplete, hc] using sortedInsert_strict h hc

theorem reachable_invariant {s : ProgressState} (h : Reachable s) :
    s.visitedSections.Sorted (· < ·) ∧ s.completedExercises.Sorted (· < ·) := by
  induction h with
  | init => exact ⟨by decide, by decide⟩
  | setCur sec hs _ ih =>
    unfold setCurrentSection
    split
    · exact ih
    · exact ⟨markVisited_sorted ih.1, by rw [markVisited_completed]; exact ih.2⟩
  | visit sec hs _ ih =>
    exact ⟨markVisited_sorted ih.1, by rw [markVisited_completed]; exact ih.2⟩
  | complete sec hs _ ih =>
    exact ⟨by rw [markExerciseComplete_visited]; exact ih.1, markExerciseComplete_sorted ih.2⟩
  | reset _ _ =>
    exact ⟨(by decide : initialProgress.visitedSections.Sorted (· < ·)),
      (by decide : initialProgress.completedExercises.Sorted (· < ·))⟩

/-! ## C8 -/

/-- C8: on every reachable store state, `markExerciseComplete` is idempotent
and leaves exactly one occurrence of the id in `completedExercises`. -/
theorem markExerciseComplete_idempotent :
    ∀ s : ProgressState, Reachable s → ∀ sec : Nat,
      markExerciseComplete sec (markExerciseComplete sec s) = markExerciseComplete sec s ∧
      (markExerciseComplete sec s).completedExercises.count sec = 1 := by
  intro s hr sec
  have hnodup : s.completedExercises.Nodup := (reachable_invariant hr).2.nodup
  by_cases hc : sec ∈ s.completedExercises
  · have h1 : markExerciseComplete sec s = s := markExerciseComplete_of_mem hc
    rw [h1]
    exact ⟨h1, List.count_eq_one_of_mem hnodup hc⟩
  · have h1 : (markExerciseComplete sec s).completedExercises =
        jsSortAsc (s.completedExercises ++ [sec]) := by
      simp [markExerciseComplete, hc]
    have hmem : sec ∈ (markExerciseComplete sec s).completedExercises := by
      rw [h1]
      exact jsSortAsc_mem.mpr (List.mem_append_right _ (List.mem_singleton_self sec))
    refine ⟨markExerciseComplete_of_mem hmem, ?_⟩
    rw [h1, (jsSortAsc_perm _).count_eq, List.count_append,
      List.count_eq_zero_of_not_mem hc]
    simp [List.count_singleton]

theorem markExerciseComplete_idempotent_witness :
    markExerciseComplete 3 (markExerciseComplete 3 initialProgress) =
      markExerciseComplete 3 initialProgress ∧
    (markExerciseComplete 3 initialProgress).completedExercises.count 3 = 1 :=
  markExerciseComplete_idempotent initialProgress Reachable.init 3

/-! ## C10 -/

/-- C10: every store state reachable from the initial state has strictly
increasing `visitedSections` and `completedExercises`, hence no duplicates. -/
theorem reachable_strictly_sorted :
    ∀ s : ProgressState, Reachable s →
      s.visitedSections.Sorted (· < ·) ∧ s.completedExercises.Sorted (· < ·) ∧
        s.visitedSections.Nodup ∧ s.completedExercises.Nodup := by
  intro s h
  obtain ⟨h1, h2⟩ := reachable_invariant h
  exact ⟨h1, h2, h1.nodup, h2.nodup⟩

theorem reachable_strictly_sorted_witness :
    initialProgress.visitedSections.Sorted (· < ·) ∧
    initialProgress.completedExercises.Sorted (· < ·) ∧
    initialProgress.visitedSections.Nodup ∧
    initialProgress.completedExercises.Nodup :=
  reachable_strictly_sorted initialProgress Reachable.init

/-! ## Journey invariant lemmas (C9) -/

theorem popEarliest_mem {ε : Type} :
    ∀ {l : List (Nat × ε)} {x : Nat × ε} {rest : List (Nat × ε)},
      popEarliest l = some (x, rest) → x ∈ l ∧ ∀ y ∈ rest, y ∈ l := by
  intro l
  induction l with
  | nil => intro x rest h; cases h
  | cons a as ih =>
    intro x rest h
    simp only [popEarliest] at h
    cases hp : popEarliest as with
    | none =>
      simp only [hp, Option.some.injEq, Prod.mk.injEq] at h
      obtain ⟨rfl, rfl⟩ := h
      exact ⟨List.mem_cons_self a as, fun y hy => absurd hy (List.not_mem_nil y)⟩
    | some pr =>
      obtain ⟨y, ys⟩ := pr
      obtain ⟨hy, hys⟩ := ih hp
      simp only [hp] at h
      by_cases hle : a.1 ≤ y.1
      · rw [if_pos hle, Option.some_inj] at h
        obtain ⟨rfl, rfl⟩ : a = x ∧ as = rest :=
          ⟨congrArg Prod.fst h, congrArg Prod.snd h⟩
        exact ⟨List.mem_cons_self _ _, fun z hz => List.mem_cons_of_mem _ hz⟩
      · rw [if_neg hle, Option.some_inj] at h
        obtain ⟨rfl, rfl⟩ : y = x ∧ a :: ys = rest :=
          ⟨congrArg Prod.fst h, congrArg Prod.snd h⟩
        refine ⟨List.mem_cons_of_mem _ hy, ?_⟩
        intro z hz
        rcases List.mem_cons.mp hz with rfl | hz
        · exact List.mem_cons_self _ _
        · exact List.mem_cons_of_mem _ (hys z hz)

theorem stepsLength_eq : stepsLength = 6 := rfl

theorem journeyFire_preserves {c : JourneyState} {e : JEvent}
    (hidx : c.activeIndex ≤ stepsLength) (he : JEventOK e) :
    (journeyFire c e).1.activeIndex ≤ stepsLength ∧
      ∀ d ∈ (journeyFire c e).2, JEventOK d.2 := by
  have hsl : stepsLength = 6 := stepsLength_eq
  cases e with
  | advanceFire next =>
    have hnext : next ≤ stepsLength - 1 := he
    cases hmt : c.mounted <;> simp [journeyFire, hmt]
    · exact hidx
    · omega
  | runAllAdvance current =>
    have hcur : current + 1 ≤ stepsLength - 1 := he
    cases hrr : c.runAllRef <;> cases hmt : c.mounted <;> simp [journeyFire, hrr, hmt]
    · exact hidx
    · exact hidx
    · exact hidx
    · exact ⟨by omega, hcur⟩
  | runAllDwell current =>
    have hcur : current ≤ stepsLength - 1 := he
    by_cases hcond : current < stepsLength - 1 ∧ c.runAllRef = true
    · have hb : (decide (current < stepsLength - 1) && c.runAllRef) = true := by
        rw [Bool.and_eq_true, decide_eq_true_eq]
        exact hcond
      simp only [journeyFire, hb, if_true]
      refine ⟨hidx, ?_⟩
      intro d hd
      rw [List.mem_singleton.mp hd]
      show current + 1 ≤ stepsLength - 1
      omega
    · have hb : (decide (current < stepsLength - 1) && c.runAllRef) = false := by
        rw [Bool.and_eq_false_iff]
        rcases Decidable.not_and_iff_or_not.mp hcond with hlt | hrr
        · exact Or.inl (decide_eq_false hlt)
        · exact Or.inr (Bool.not_eq_true _ ▸ hrr)
      simp only [journeyFire, hb, Bool.false_eq_true, if_false]
      exact ⟨hidx, fun d hd => absurd hd (List.not_mem_nil d)⟩

theorem stepSys_journeyInv {s : Sys JourneyState JEvent} (h : JourneyInv s) :
    JourneyInv (stepSys journeyFire s) := by
  obtain ⟨hidx, hpend⟩ := h
  unfold stepSys
  cases hp : popEarliest s.pending with
  | none => exact ⟨hidx, hpend⟩
  | some pr =>
    obtain ⟨⟨t, e⟩, rest⟩ := pr
    obtain ⟨hmem, hrest⟩ := popEarliest_mem hp
    obtain ⟨h1, h2⟩ := journeyFire_preserves (c := s.comp) (e := e) hidx (hpend _ hmem)
    refine ⟨h1, ?_⟩
    intro te hte
    rcases List.mem_append.mp hte with hte | hte
    · exact hpend _ (hrest te hte)
    · rcases List.mem_map.mp hte with ⟨d, hd, rfl⟩
      exact h2 d hd

theorem advanceTo_journeyInv {s : Sys JourneyState JEvent} {next : Int}
    (h : JourneyInv s) : JourneyInv (advanceTo next s) := by
  obtain ⟨hidx, hpend⟩ := h
  unfold advanceTo
  split
  · exact ⟨hidx, hpend⟩
  · next hcond =>
    push_neg at hcond
    refine ⟨hidx, ?_⟩
    intro te hte
    rcases List.mem_append.mp hte with hte | hte
    · exact hpend _ hte
    · rw [List.mem_singleton.mp hte]
      show next.toNat ≤ stepsLength - 1
      rw [stepsLength_eq] at hcond ⊢
      omega

theorem journeyRunAll_journeyInv {s : Sys JourneyState JEvent}
    (h : JourneyInv s) : JourneyInv (journeyRunAll s) := by
  obtain ⟨hidx, hpend⟩ := h
  unfold journeyRunAll
  split
  · exact ⟨hidx, hpend⟩
  · dsimp only
    split
    · next hlt =>
      refine ⟨hidx, ?_⟩
      intro te hte
      rcases List.mem_append.mp hte with hte | hte
      · exact hpend _ hte
      · rw [List.mem_singleton.mp hte]
        show s.comp.activeIndex + 1 ≤ stepsLength - 1
        rw [stepsLength_eq] at hlt ⊢
        omega
    · exact ⟨hidx, hpend⟩

theorem nodeClick_journeyInv {s : Sys JourneyState JEvent} {i : Nat}
    (h : JourneyInv s) : JourneyInv (nodeClick i s) := by
  obtain ⟨hidx, hpend⟩ := h
  unfold nodeClick
  split
  · next hle => exact ⟨le_trans hle hidx, hpend⟩
  · exact ⟨hidx, hpend⟩

theorem handleReset_journeyInv (s : Sys JourneyState JEvent) :
    JourneyInv (handleReset s) :=
  ⟨Nat.zero_le _, fun te hte => absurd hte (List.not_mem_nil te)⟩

/-! ## C9 -/

/-- C9: every progress-store operation preserves validity of the stored
section ids (arguments being section ids, as the TS `SectionId` type
enforces), and every journey operation — including firing a pending timer —
keeps the step cursor within `[0, STEPS.length]`. -/
theorem operations_preserve_invariants :
    (∀ (s : ProgressState) (sec : Nat), sec ≤ 9 → ValidProgress s →
       ValidProgress (setCurrentSection sec s)) ∧
    (∀ (s : ProgressState) (sec : Nat), sec ≤ 9 → ValidProgress s →
       ValidProgress (markVisited sec s)) ∧
    (∀ (s : ProgressState) (sec : Nat), sec ≤ 9 → ValidProgress s →
       ValidProgress (markExerciseComplete sec s)) ∧
    (∀ s : ProgressState, ValidProgress (resetProgress s)) ∧
    (∀ (s : Sys JourneyState JEvent) (next : Int), JourneyInv s →
       JourneyInv (advanceTo next s)) ∧
    (∀ s : Sys JourneyState JEvent, JourneyInv s → JourneyInv (journeyRunAll s)) ∧
    (∀ (s : Sys JourneyState JEvent) (i : Nat), JourneyInv s →
       JourneyInv (nodeClick i s)) ∧
    (∀ s : Sys JourneyState JEvent, JourneyInv (handleReset s)) ∧
    (∀ s : Sys JourneyState JEvent, JourneyInv s →
       JourneyInv (stepSys journeyFire s)) := by
  have hmv : ∀ (s : ProgressState) (sec : Nat), sec ≤ 9 → ValidProgress s →
      ValidProgress (markVisited sec s) := by
    intro s sec hsec h
    obtain ⟨h1, h2, h3⟩ := h
    by_cases hc : sec ∈ s.visitedSections
    · simpa [markVisited, hc, ValidProgress] using ⟨h1, h2, h3⟩
    · refine ⟨?_, ?_, ?_⟩ <;> simp only [markVisited, hc, if_false, ite_false]
      · exact h1
      · intro x hx
        rcases List.mem_append.mp (jsSortAsc_mem.mp hx) with hx | hx
        · exact h2 x hx
        · rw [List.mem_singleton.mp hx]
          exact hsec
      · exact h3
  refine ⟨?_, hmv, ?_, ?_, fun s next h => advanceTo_journeyInv h,
    fun s h => journeyRunAll_journeyInv h, fun s i h => nodeClick_journeyInv h,
    handleReset_journeyInv, fun s h => stepSys_journeyInv h⟩
  · intro s sec hsec h
    unfold setCurrentSection
    split
    · exact h
    · exact hmv _ sec hsec ⟨hsec, h.2.1, h.2.2⟩
  · intro s sec hsec h
    obtain ⟨h1, h2, h3⟩ := h
    by_cases hc : sec ∈ s.completedExercises
    · simpa [markExerciseComplete, hc, ValidProgress] using ⟨h1, h2, h3⟩
    · refine ⟨?_, ?_, ?_⟩ <;> simp only [markExerciseComplete, hc, if_false, ite_false]
      · exact h1
      · exact h2
      · intro x hx
        rcases List.mem_append.mp (jsSortAsc_mem.mp hx) with hx | hx
        · exact h3 x hx
        · rw [List.mem_singleton.mp hx]
          exact hsec
  · intro s
    exact ⟨Nat.zero_le _,
      (by decide : ∀ x ∈ initialProgress.visitedSections, x ≤ 9),
      (by decide : ∀ x ∈ initialProgress.completedExercises, x ≤ 9)⟩

theorem operations_preserve_invariants_witness :
    ValidProgress (setCurrentSection 3 initialProgress) ∧
    ValidProgress (markVisited 4 initialProgress) ∧
    ValidProgress (markExerciseComplete 5 initialProgress) ∧
    ValidProgress (resetProgress initialProgress) ∧
    JourneyInv (advanceTo 1 journeyInit) ∧
    JourneyInv (journeyRunAll journeyInit) ∧
    JourneyInv (nodeClick 0 journeyInit) ∧
    JourneyInv (handleReset journeyInit) ∧
    JourneyInv (stepSys journeyFire journeyInit) := by
  have hvalid : ValidProgress initialProgress := ⟨Nat.zero_le _, by decide, by decide⟩
  have hinv : JourneyInv journeyInit :=
    ⟨Nat.zero_le _, fun te hte => absurd hte (List.not_mem_nil te)⟩
  have h := operations_preserve_invariants
  exact ⟨h.1 _ 3 (by decide) hvalid, h.2.1 _ 4 (by decide) hvalid,
    h.2.2.1 _ 5 (by decide) hvalid, h.2.2.2.1 initialProgress,
    h.2.2.2.2.1 _ 1 hinv, h.2.2.2.2.2.1 _ hinv, h.2.2.2.2.2.2.1 _ 0 hinv,
    h.2.2.2.2.2.2.2.1 journeyInit, h.2.2.2.2.2.2.2.2 _ hinv⟩

end K8s
